import Mathlib

/-!
Verification of `bindsnet/preprocessing/__init__.py`.

The file shallowly embeds the caching layer (`AbstractPreprocessor.process`,
`__gen_hash`, `__check_file`, `__save`), the Numenta geospatial encoder
(`__hash_coordinate`, `__coordinate_order`, `__coordinate_bit`,
`__map_transform`, `__radius`, `__neighbors`, `__select`,
`__generate_vector`, `_process`) and the experimental digit one-hot encoder
(`AltGeoPreprocessor._process`, `__encode`).

Library collaborators that the source calls but does not define are modelled
as parameters constrained exactly by their documented contracts:
`hashlib.md5` is an arbitrary function into 128-bit digests; Python's
`random` module is an arbitrary seedable generator whose `randint(a, b)`
draw lies in `[a, b]`; `pyproj.Proj` is an arbitrary planar projection;
`numpy.argsort` is an arbitrary function returning a permutation of indices
along which the sorted values are non-decreasing (the documented contract of
its default, non-stable sort).  Machine floats are idealised as rationals
and `math.sqrt` as the real square root.
-/

namespace Preproc

/-! ### Hex rendering of md5 digests (`hashlib.md5(...).hexdigest()`) -/

/-- One hexadecimal digit character (lowercase, as produced by `hexdigest`). -/
def hexChar (n : Nat) : Char :=
  if n < 10 then Char.ofNat (48 + n) else Char.ofNat (87 + n)

/-- Big-endian hex rendering of `n` with exactly `k` digits (left-padded
with zeros), mirroring the fixed-width output of `md5.hexdigest()`. -/
def hexChars : Nat → Nat → List Char
  | 0, _ => []
  | k + 1, n => hexChars k (n / 16) ++ [hexChar (n % 16)]

/-- The 32-character hexadecimal digest string of a 128-bit value. -/
def natToHex32 (n : Nat) : String := ⟨hexChars 32 n⟩

theorem hexChars_length (k n : Nat) : (hexChars k n).length = k := by
  induction k generalizing n with
  | zero => rfl
  | succ k ih => simp [hexChars, ih]

theorem natToHex32_length (n : Nat) : (natToHex32 n).length = 32 := by
  simpa [natToHex32, String.length] using hexChars_length 32 n

theorem natToHex32_ne_empty (n : Nat) : natToHex32 n ≠ "" := by
  intro h
  have := natToHex32_length n
  rw [h] at this
  simp [String.length] at this

/-! ### The `hashlib.md5` collaborator -/

/-- Model of `hashlib.md5`: an arbitrary function from strings to 128-bit
digests.  `md5 s` is the digest as an integer, i.e. `int(m.hexdigest(), 16)`;
the hex digest string itself is `natToHex32 (md5 s)`. -/
structure Md5Model where
  md5 : String → Nat
  md5_lt : ∀ s, md5 s < 2 ^ 128

/-! ### The caching layer (`AbstractPreprocessor`) -/

/-- Exceptions the embedded code can raise: `pickle` failing to deserialize
the cache blob, and `IndexError` / `ValueError` from the digit encoder. -/
inductive PyErr where
  | unpicklable
  | indexError
  | valueError
deriving DecidableEq

/-- State of the persisted cache file (`cachedfile`): missing
(`FileNotFoundError` on open), present but not deserializable as a
`{verify, data}` dict, or a stored `{verify, data}` entry. -/
inductive Blob (α : Type) where
  | absent
  | invalid
  | stored (verify : String) (data : Option α)
deriving DecidableEq

/-- `AbstractPreprocessor.__gen_hash`: md5 hex digest of the concatenated
file lines followed by the class name (`str(self.__class__.__name__)`). -/
def gen_hash (M : Md5Model) (lines : List String) (clsName : String) : String :=
  natToHex32 (M.md5 (String.join lines ++ clsName))

/-- `AbstractPreprocessor.__check_file`: try to load the cached file; a
missing file yields the sentinel `{'verify': '', 'data': None}`, any other
load failure propagates (`pickle.load` raises, only `FileNotFoundError` is
caught); then compare the stored `verify` with the computed one.  Returns
whether the cache is valid together with the data kept on a hit. -/
def check_file {α : Type} (blob : Blob α) (verify : String) :
    Except PyErr (Bool × Option α) :=
  match blob with
  | .absent => if verify = "" then .ok (true, none) else .ok (false, none)
  | .invalid => .error .unpicklable
  | .stored v d => if verify = v then .ok (true, d) else .ok (false, none)

/-- Outcome of one `process` call: the returned value (or the uncaught
exception), the state of the cache file afterwards, and how many times the
`_process` hook ran. -/
structure ProcOutcome (α : Type) where
  result : Except PyErr (Option α)
  blob : Blob α
  computeCalls : Nat

/-- `AbstractPreprocessor.process`: with `use_cache` compute the hash,
return the cached data on a `__check_file` hit, otherwise run the abstract
`_process` hook (modelled by `compute`) and persist `{verify, data}` via
`__save`; without `use_cache` always run the hook and persist nothing. -/
def process {α : Type} (M : Md5Model) (compute : List String → Except PyErr α)
    (clsName : String) (csvLines : List String) (use_cache : Bool)
    (blob : Blob α) : ProcOutcome α :=
  if use_cache then
    let verify := gen_hash M csvLines clsName
    match check_file blob verify with
    | .error e => ⟨.error e, blob, 0⟩
    | .ok (true, d) => ⟨.ok d, blob, 0⟩
    | .ok (false, _) =>
      match compute csvLines with
      | .error e => ⟨.error e, blob, 1⟩
      | .ok data => ⟨.ok (some data), .stored verify (some data), 1⟩
  else
    match compute csvLines with
    | .error e => ⟨.error e, blob, 1⟩
    | .ok data => ⟨.ok (some data), blob, 1⟩

/-! ### Encoder configurations and input records -/

/-- Constructor parameters of `NumentaPreprocessor.__init__`. -/
structure NumentaCfg where
  scale : ℤ
  w : ℕ
  n : ℕ
  timestep : ℤ
deriving DecidableEq

/-- Constructor parameters of `AltGeoPreprocessor.__init__`. -/
structure AltCfg where
  g_prec : ℕ
  s_prec : ℕ
  s_max : ℚ
deriving DecidableEq

/-- One CSV data row: `speed,latitude,longitude`. -/
structure Record where
  speed : ℚ
  latitude : ℚ
  longitude : ℚ
deriving DecidableEq

/-- The verify hash a configured `NumentaPreprocessor` instance computes in
`__gen_hash`: the configuration fields are in scope on `self` but the code
hashes only the file content and `self.__class__.__name__`. -/
def numenta_gen_hash (M : Md5Model) (_cfg : NumentaCfg) (lines : List String) : String :=
  gen_hash M lines "NumentaPreprocessor"

/-- The verify hash a configured `AltGeoPreprocessor` instance computes in
`__gen_hash`; as for the Numenta encoder, only file content and class name
enter the digest. -/
def altgeo_gen_hash (M : Md5Model) (_cfg : AltCfg) (lines : List String) : String :=
  gen_hash M lines "AltGeoPreprocessor"

/-- A concrete md5 stand-in used to instantiate witnesses. -/
def mStub : Md5Model where
  md5 s := s.data.length % 2 ^ 128
  md5_lt s := Nat.mod_lt _ (by norm_num)

theorem gen_hash_ne_empty (M : Md5Model) (lines : List String) (cls : String) :
    gen_hash M lines cls ≠ "" := natToHex32_ne_empty _

/-- Claim C1 (counterexample): two `NumentaPreprocessor` configurations that
differ in `scale` produce the same verify hash over the same input file, and
a run under the second configuration still hits a cache entry persisted
under the first (the `_process` hook is not invoked), because `__gen_hash`
hashes only file content and class name. -/
theorem c1_config_hash_counterexample :
    (⟨5, 21, 1000, 10⟩ : NumentaCfg) ≠ ⟨6, 21, 1000, 10⟩ ∧
    numenta_gen_hash mStub ⟨5, 21, 1000, 10⟩ ["speed,latitude,longitude\n", "1.0,2.0,3.0\n"] =
      numenta_gen_hash mStub ⟨6, 21, 1000, 10⟩ ["speed,latitude,longitude\n", "1.0,2.0,3.0\n"] ∧
    process mStub (fun _ => (.ok 0 : Except PyErr ℕ)) "NumentaPreprocessor"
        ["speed,latitude,longitude\n", "1.0,2.0,3.0\n"] true
        (.stored (numenta_gen_hash mStub ⟨5, 21, 1000, 10⟩
          ["speed,latitude,longitude\n", "1.0,2.0,3.0\n"]) (some 7)) =
      ⟨.ok (some 7),
        .stored (numenta_gen_hash mStub ⟨5, 21, 1000, 10⟩
          ["speed,latitude,longitude\n", "1.0,2.0,3.0\n"]) (some 7), 0⟩ := by
  refine ⟨by decide, rfl, ?_⟩
  simp [process, check_file, numenta_gen_hash]

/-- Claim C1 (amended): the verify hash is the md5 hex digest of the file
content concatenated with the encoder class name; it is therefore invariant
under every change of configuration parameters (`scale`, `w`, `n`,
`timestep`, `g_prec`, `s_prec`, `s_max`), and only the file content and the
encoder class enter the digest. -/
theorem c1_hash_is_content_and_class_only (M : Md5Model) (c c' : NumentaCfg)
    (a a' : AltCfg) (lines : List String) :
    numenta_gen_hash M c lines = numenta_gen_hash M c' lines ∧
    altgeo_gen_hash M a lines = altgeo_gen_hash M a' lines ∧
    numenta_gen_hash M c lines =
      natToHex32 (M.md5 (String.join lines ++ "NumentaPreprocessor")) ∧
    altgeo_gen_hash M a lines =
      natToHex32 (M.md5 (String.join lines ++ "AltGeoPreprocessor")) :=
  ⟨rfl, rfl, rfl, rfl⟩

/-- Claim C3: with caching enabled, a persisted entry whose `verify` equals
the hash of the current input is returned as-is without invoking `_process`
and without touching the store; an absent entry or one with a mismatching
`verify` leads to one `_process` invocation, persistence of the fresh
`{verify, data}` entry, and the fresh batch being returned. -/
theorem c3_cache_hit_and_miss {α : Type} (M : Md5Model)
    (compute : List String → Except PyErr α) (cls : String) (csv : List String)
    (d : Option α) (v : String) (data : α) :
    (process M compute cls csv true (.stored (gen_hash M csv cls) d) =
      ⟨.ok d, .stored (gen_hash M csv cls) d, 0⟩) ∧
    (compute csv = .ok data →
      process M compute cls csv true .absent =
        ⟨.ok (some data), .stored (gen_hash M csv cls) (some data), 1⟩) ∧
    (compute csv = .ok data → v ≠ gen_hash M csv cls →
      process M compute cls csv true (.stored v d) =
        ⟨.ok (some data), .stored (gen_hash M csv cls) (some data), 1⟩) := by
  refine ⟨?_, ?_, ?_⟩
  · simp [process, check_file]
  · intro h
    simp [process, check_file, gen_hash_ne_empty M csv cls, h]
  · intro h hv
    have : ¬ gen_hash M csv cls = v := fun hh => hv hh.symm
    simp [process, check_file, this, h]

/-- Witness for C3 at concrete inputs: a hit on a matching stored entry, a
miss on an absent blob, and a miss on a mismatching stored entry. -/
theorem c3_cache_hit_and_miss_witness :
    (process mStub (fun _ => (.ok 42 : Except PyErr ℕ)) "NumentaPreprocessor" ["r\n"] true
        (.stored (gen_hash mStub ["r\n"] "NumentaPreprocessor") (some 7)) =
      ⟨.ok (some 7), .stored (gen_hash mStub ["r\n"] "NumentaPreprocessor") (some 7), 0⟩) ∧
    (process mStub (fun _ => (.ok 42 : Except PyErr ℕ)) "NumentaPreprocessor" ["r\n"] true .absent =
      ⟨.ok (some 42), .stored (gen_hash mStub ["r\n"] "NumentaPreprocessor") (some 42), 1⟩) ∧
    (process mStub (fun _ => (.ok 42 : Except PyErr ℕ)) "NumentaPreprocessor" ["r\n"] true
        (.stored "zz" (some 7)) =
      ⟨.ok (some 42), .stored (gen_hash mStub ["r\n"] "NumentaPreprocessor") (some 42), 1⟩) :=
  ⟨(c3_cache_hit_and_miss mStub (fun _ => .ok 42) "NumentaPreprocessor" ["r\n"]
      (some 7) "zz" 42).1,
   (c3_cache_hit_and_miss mStub (fun _ => .ok 42) "NumentaPreprocessor" ["r\n"]
      (some 7) "zz" 42).2.1 rfl,
   (c3_cache_hit_and_miss mStub (fun _ => .ok 42) "NumentaPreprocessor" ["r\n"]
      (some 7) "zz" 42).2.2 rfl (by decide)⟩

/-- Claim C5 (counterexample): a cache blob that is present but not
deserializable as a `{verify, data}` structure is NOT treated as a cache
miss: `pickle.load` raises, only `FileNotFoundError` is caught, so the
error surfaces to the caller and no recomputation happens. -/
theorem c5_invalid_blob_counterexample :
    process mStub (fun _ => (.ok 0 : Except PyErr ℕ)) "AltGeoPreprocessor" ["r\n"] true .invalid =
      ⟨.error .unpicklable, .invalid, 0⟩ := rfl

/-- Claim C5 (amended): an absent cache file is treated as a cache miss and
recomputation proceeds transparently, but a present-yet-undeserializable
blob raises an uncaught exception instead of falling back to recomputation. -/
theorem c5_absent_is_miss_invalid_raises {α : Type} (M : Md5Model)
    (compute : List String → Except PyErr α) (cls : String) (csv : List String)
    (data : α) :
    (compute csv = .ok data →
      process M compute cls csv true .absent =
        ⟨.ok (some data), .stored (gen_hash M csv cls) (some data), 1⟩) ∧
    process M compute cls csv true .invalid = ⟨.error .unpicklable, .invalid, 0⟩ := by
  refine ⟨fun h => ?_, ?_⟩
  · simp [process, check_file, gen_hash_ne_empty M csv cls, h]
  · simp [process, check_file]

/-! ### DeterministicOrder (`__hash_coordinate`, `__coordinate_order`,
`__coordinate_bit`) -/

/-- Model of Python's global `random` module: a generator state type, the
re-seeding function `seed`, and the two draws the source performs.
`randint_mem` is the documented contract of `random.randint(a, b)`: the
draw lies in `[a, b]` whenever `a ≤ b`. -/
structure RandModel (σ : Type) where
  seedFn : Nat → σ
  getrandbits64 : σ → Nat × σ
  randintFn : σ → ℤ → ℤ → ℤ × σ
  randint_mem : ∀ st a b, a ≤ b →
    a ≤ (randintFn st a b).1 ∧ (randintFn st a b).1 ≤ b

/-- `NumentaPreprocessor.__hash_coordinate`: md5 of the decimal string
`"{a},{b}"`, taken as an integer and reduced modulo `2 ** 64`. -/
def hash_coordinate (M : Md5Model) (a b : ℤ) : ℕ :=
  M.md5 (toString a ++ "," ++ toString b) % 2 ^ 64

/-- `NumentaPreprocessor.__coordinate_order` as a transformer of the global
generator state: `seed(self.__hash_coordinate(...))` replaces the state,
then `getrandbits(64)` draws from the freshly seeded state, so the incoming
state is discarded. -/
def coordinate_order {σ : Type} (M : Md5Model) (R : RandModel σ) (a b : ℤ) :
    σ → Nat × σ :=
  fun _ => R.getrandbits64 (R.seedFn (hash_coordinate M a b))

/-- `NumentaPreprocessor.__coordinate_bit` as a transformer of the global
generator state: re-seed with the coordinate hash, then draw
`randint(0, self.n - 1)`. -/
def coordinate_bit {σ : Type} (M : Md5Model) (R : RandModel σ) (n : ℕ) (a b : ℤ) :
    σ → ℤ × σ :=
  fun _ => R.randintFn (R.seedFn (hash_coordinate M a b)) 0 ((n : ℤ) - 1)

/-- The order value of a grid cell (the first component of
`__coordinate_order`, which is independent of the incoming state). -/
def order_value {σ : Type} (M : Md5Model) (R : RandModel σ) (c : ℤ × ℤ) : Nat :=
  (R.getrandbits64 (R.seedFn (hash_coordinate M c.1 c.2))).1

/-- The output bit index of a grid cell (the first component of
`__coordinate_bit`, which is independent of the incoming state). -/
def bit_index {σ : Type} (M : Md5Model) (R : RandModel σ) (n : ℕ) (c : ℤ × ℤ) : ℤ :=
  (R.randintFn (R.seedFn (hash_coordinate M c.1 c.2)) 0 ((n : ℤ) - 1)).1

/-- Claim C2: the seed is the md5 of the decimal string `"a,b"` reduced
modulo `2^64`; since the generator is re-seeded immediately before each
draw, `order_value` and `bit_index` are functions of the key alone —
repeated calls agree regardless of the incoming generator state (i.e. of
how calls are interleaved across keys) — and the bit index lies in
`[0, n)`. -/
theorem c2_deterministic_order {σ : Type} (M : Md5Model) (R : RandModel σ)
    (a b : ℤ) (n : ℕ) (hn : 1 ≤ n) (st st' : σ) :
    hash_coordinate M a b = M.md5 (toString a ++ "," ++ toString b) % 2 ^ 64 ∧
    (coordinate_order M R a b st).1 = (coordinate_order M R a b st').1 ∧
    (coordinate_bit M R n a b st).1 = (coordinate_bit M R n a b st').1 ∧
    (coordinate_order M R a b st).1 = order_value M R (a, b) ∧
    (coordinate_bit M R n a b st).1 = bit_index M R n (a, b) ∧
    0 ≤ (coordinate_bit M R n a b st).1 ∧
    (coordinate_bit M R n a b st).1 < n := by
  have hb : (0 : ℤ) ≤ (n : ℤ) - 1 := by omega
  obtain ⟨h1, h2⟩ := R.randint_mem (R.seedFn (hash_coordinate M a b)) 0 ((n : ℤ) - 1) hb
  exact ⟨rfl, rfl, rfl, rfl, rfl, h1, by
    simpa [coordinate_bit] using lt_of_le_of_lt h2 (by omega)⟩

/-- A concrete generator stand-in used to instantiate witnesses: `randint`
returns the lower bound, `getrandbits(64)` returns `7`. -/
def rStub : RandModel Unit where
  seedFn _ := ()
  getrandbits64 _ := (7, ())
  randintFn _ a _ := (a, ())
  randint_mem _ a _ h := ⟨le_refl a, h⟩

/-- Witness for C2 at the concrete key `(40, -73)` with `n = 1000`. -/
theorem c2_deterministic_order_witness :
    (coordinate_order mStub rStub 40 (-73) ()).1 = order_value mStub rStub (40, -73) ∧
    (coordinate_bit mStub rStub 1000 40 (-73) ()).1 = bit_index mStub rStub 1000 (40, -73) ∧
    0 ≤ (coordinate_bit mStub rStub 1000 40 (-73) ()).1 ∧
    (coordinate_bit mStub rStub 1000 40 (-73) ()).1 < 1000 :=
  ⟨(c2_deterministic_order mStub rStub 40 (-73) 1000 (by decide) () ()).2.2.2.1,
   (c2_deterministic_order mStub rStub 40 (-73) 1000 (by decide) () ()).2.2.2.2.1,
   (c2_deterministic_order mStub rStub 40 (-73) 1000 (by decide) () ()).2.2.2.2.2.1,
   (c2_deterministic_order mStub rStub 40 (-73) 1000 (by decide) () ()).2.2.2.2.2.2⟩

/-! ### NeighborhoodSampler (`__neighbors`, `__select`, `__radius`) -/

/-- Python `range(lo, hi)` over integers, as a list. -/
def intRange (lo hi : ℤ) : List ℤ :=
  (List.range (hi - lo).toNat).map (fun (k : ℕ) => lo + (k : ℤ))

/-- `NumentaPreprocessor.__neighbors`:
`itertools.product(range(lat - r, lat + r + 1), range(lon - r, lon + r + 1))`,
i.e. the square window enumerated in row-major order (latitude-major,
longitude-minor, both ascending). -/
def neighbors (lat lon radius : ℤ) : List (ℤ × ℤ) :=
  (intRange (lat - radius) (lat + radius + 1)).flatMap
    (fun x => (intRange (lon - radius) (lon + radius + 1)).map (fun y => (x, y)))

/-- Python slice `arr[-w:]`: the last `w` entries when `w ≥ 1`; for `w = 0`
the slice `[-0:]` is `[0:]`, i.e. the whole list. -/
def pySliceLast {α : Type} (w : ℕ) (l : List α) : List α :=
  if w = 0 then l else l.drop (l.length - w)

/-- Model of `numpy.argsort` with the default sort kind: it returns some
permutation of `range(len(orders))` along which the values are
non-decreasing.  The default (`quicksort`/introsort) is documented as not
stable, so nothing about the relative order of equal values is promised. -/
structure SortModel where
  argsortFn : List ℕ → List ℕ
  argsort_perm : ∀ l, List.Perm (argsortFn l) (List.range l.length)
  argsort_sorted : ∀ l, List.Sorted (· ≤ ·) ((argsortFn l).map (fun i => l.getD i 0))

/-- `NumentaPreprocessor.__select`: compute the order value of every
neighbor, argsort, take the slice `[-w:]` of the index array, and index the
neighbor array with it. -/
def select {σ : Type} (S : SortModel) (M : Md5Model) (R : RandModel σ) (w : ℕ)
    (window : List (ℤ × ℤ)) : List (ℤ × ℤ) :=
  (pySliceLast w (S.argsortFn (window.map (order_value M R)))).map
    (fun i => window.getD i (0, 0))

/-- Index comparison used to build a stable argsort: order by value, ties
by generation index. -/
def idxLe (l : List ℕ) (i j : ℕ) : Prop :=
  l.getD i 0 < l.getD j 0 ∨ (l.getD i 0 = l.getD j 0 ∧ i ≤ j)

instance (l : List ℕ) : DecidableRel (idxLe l) := fun i j => by
  unfold idxLe; infer_instance

instance (l : List ℕ) : IsTotal ℕ (idxLe l) where
  total i j := by
    unfold idxLe
    rcases lt_trichotomy (l.getD i 0) (l.getD j 0) with h | h | h
    · exact Or.inl (Or.inl h)
    · rcases Nat.le_total i j with hij | hij
      · exact Or.inl (Or.inr ⟨h, hij⟩)
      · exact Or.inr (Or.inr ⟨h.symm, hij⟩)
    · exact Or.inr (Or.inl h)

instance (l : List ℕ) : IsTrans ℕ (idxLe l) where
  trans i j k hij hjk := by
    rcases hij with h | ⟨he, hi⟩ <;> rcases hjk with h2 | ⟨he2, hi2⟩
    · exact Or.inl (h.trans h2)
    · exact Or.inl (he2 ▸ h)
    · exact Or.inl (he ▸ h2)
    · exact Or.inr ⟨he.trans he2, hi.trans hi2⟩

/-- A stable conforming argsort: indices sorted by value, ties broken by
ascending index (the behavior the spec ascribes to selection). -/
def argsortStable (l : List ℕ) : List ℕ :=
  List.insertionSort (idxLe l) (List.range l.length)

theorem argsortStable_perm (l : List ℕ) :
    List.Perm (argsortStable l) (List.range l.length) :=
  List.perm_insertionSort _ _

theorem argsortStable_sorted (l : List ℕ) :
    List.Sorted (· ≤ ·) ((argsortStable l).map (fun i => l.getD i 0)) := by
  have h := List.sorted_insertionSort (idxLe l) (List.range l.length)
  exact h.map _ (fun i j hij => by
    rcases hij with h1 | ⟨h1, _⟩
    · exact le_of_lt h1
    · exact le_of_eq h1)

/-- The stable conforming instance of the `numpy.argsort` contract. -/
def stableSortModel : SortModel where
  argsortFn := argsortStable
  argsort_perm := argsortStable_perm
  argsort_sorted := argsortStable_sorted

/-- The selection the claim describes: stable sort of the window by order
value with ties broken in favor of earlier generation order, then the last
`w` entries. -/
def select_spec {σ : Type} (M : Md5Model) (R : RandModel σ) (w : ℕ)
    (window : List (ℤ × ℤ)) : List (ℤ × ℤ) :=
  (pySliceLast w (argsortStable (window.map (order_value M R)))).map
    (fun i => window.getD i (0, 0))

/-- An equally conforming argsort that breaks the all-equal tie of nine
values the other way: `numpy.argsort`'s unstable default sort is free to
return it. -/
def argsortBad (l : List ℕ) : List ℕ :=
  if l = List.replicate 9 7 then (List.range 9).reverse else argsortStable l

/-- The adversarial conforming instance of the `numpy.argsort` contract. -/
def badSortModel : SortModel where
  argsortFn := argsortBad
  argsort_perm l := by
    unfold argsortBad
    split
    · next h => subst h; decide
    · exact argsortStable_perm l
  argsort_sorted l := by
    unfold argsortBad
    split
    · next h => subst h; decide
    · exact argsortStable_sorted l

/-- The ascending sort of a list of order values (the unique sorted
rearrangement, used to state what any conforming argsort must produce). -/
def sortValues (l : List ℕ) : List ℕ := List.insertionSort (· ≤ ·) l

theorem map_getD_range {α : Type} (l : List α) (d : α) :
    (List.range l.length).map (fun i => l.getD i d) = l := by
  apply List.ext_getElem (by simp)
  intro i h1 h2
  simp [List.getD_eq_getElem?_getD, List.getElem?_eq_getElem h2]

theorem argsort_map_getD (S : SortModel) (l : List ℕ) :
    (S.argsortFn l).map (fun i => l.getD i 0) = sortValues l := by
  have h1 : List.Perm ((S.argsortFn l).map (fun i => l.getD i 0))
      ((List.range l.length).map (fun i => l.getD i 0)) :=
    (S.argsort_perm l).map _
  rw [map_getD_range] at h1
  exact List.eq_of_perm_of_sorted
    (h1.trans (List.perm_insertionSort _ _).symm)
    (S.argsort_sorted l) (List.sorted_insertionSort _ _)

theorem mem_argsort_lt (S : SortModel) (l : List ℕ) {i : ℕ}
    (h : i ∈ S.argsortFn l) : i < l.length := by
  have := (S.argsort_perm l).mem_iff.mp h
  simpa using this

theorem pySliceLast_subset {α : Type} (w : ℕ) (l : List α) :
    pySliceLast w l ⊆ l := by
  unfold pySliceLast
  split
  · exact fun x hx => hx
  · exact List.drop_subset _ l

theorem pySliceLast_map {α β : Type} (f : α → β) (w : ℕ) (l : List α) :
    (pySliceLast w l).map f = pySliceLast w (l.map f) := by
  unfold pySliceLast
  split
  · rfl
  · rw [List.map_drop, List.length_map]

theorem pySliceLast_length {α : Type} (w : ℕ) (l : List α) (hw : w ≠ 0) :
    (pySliceLast w l).length = min w l.length := by
  unfold pySliceLast
  rw [if_neg hw, List.length_drop]
  omega

theorem select_length {σ : Type} (S : SortModel) (M : Md5Model) (R : RandModel σ)
    (w : ℕ) (window : List (ℤ × ℤ)) (hw : 1 ≤ w) :
    (select S M R w window).length = min w window.length := by
  unfold select
  rw [List.length_map, pySliceLast_length _ _ (by omega),
    (S.argsort_perm _).length_eq]
  simp

theorem select_map_order {σ : Type} (S : SortModel) (M : Md5Model) (R : RandModel σ)
    (w : ℕ) (window : List (ℤ × ℤ)) :
    (select S M R w window).map (order_value M R) =
      pySliceLast w (sortValues (window.map (order_value M R))) := by
  unfold select
  rw [List.map_map]
  have hmem : ∀ i ∈ pySliceLast w (S.argsortFn (window.map (order_value M R))),
      (order_value M R ∘ fun i => window.getD i (0, 0)) i =
        (window.map (order_value M R)).getD i 0 := by
    intro i hi
    have hlt : i < window.length := by
      have := mem_argsort_lt S _ (pySliceLast_subset _ _ hi)
      simpa using this
    simp [List.getD_eq_getElem?_getD, List.getElem?_eq_getElem hlt,
      List.getElem?_eq_getElem (by simpa using hlt : i < (window.map (order_value M R)).length)]
  rw [List.map_congr_left hmem, pySliceLast_map, argsort_map_getD]

theorem intRange_length (lo hi : ℤ) : (intRange lo hi).length = (hi - lo).toNat := by
  unfold intRange
  rw [List.length_map, List.length_range]

theorem intRange_getD (lo hi : ℤ) (k : ℕ) (h : k < (hi - lo).toNat) :
    (intRange lo hi).getD k 0 = lo + k := by
  have hk : k < (intRange lo hi).length := by rwa [intRange_length]
  rw [List.getD_eq_getElem?_getD, List.getElem?_eq_getElem hk]
  simp only [intRange, List.getElem_map, List.getElem_range, Option.getD_some]

theorem flatMap_length_uniform {α β : Type} (f : α → List β) (m : ℕ)
    (hf : ∀ x, (f x).length = m) : ∀ l : List α, (l.flatMap f).length = l.length * m
  | [] => by simp
  | x :: xs => by
    simp [List.flatMap_cons, hf x, flatMap_length_uniform f m hf xs]
    ring

theorem flatMap_getD_uniform {α β : Type} (f : α → List β) (m : ℕ) (d : β) (e : α)
    (hf : ∀ x, (f x).length = m) :
    ∀ (l : List α) (i j : ℕ), i < l.length → j < m →
      (l.flatMap f).getD (m * i + j) d = (f (l.getD i e)).getD j d
  | [], i, j, hi, _ => by simp at hi
  | x :: xs, 0, j, _, hj => by
    have hj' : j < (f x).length := by rwa [hf x]
    simp [List.flatMap_cons, List.getD_eq_getElem?_getD,
      List.getElem?_append_left hj', List.getElem?_eq_getElem hj']
  | x :: xs, i + 1, j, hi, hj => by
    have : m * (i + 1) + j = (f x).length + (m * i + j) := by rw [hf x]; ring
    rw [List.flatMap_cons, this, List.getD_eq_getElem?_getD,
      List.getElem?_append_right (by omega), hf x]
    have : (f x).length + (m * i + j) - (f x).length = m * i + j := by omega
    simp only [Nat.add_sub_cancel_left]
    rw [← List.getD_eq_getElem?_getD,
      flatMap_getD_uniform f m d e hf xs i j (by simpa using hi) hj]
    simp

theorem neighbors_length (a b r : ℤ) :
    (neighbors a b r).length = (2 * r + 1).toNat ^ 2 := by
  unfold neighbors
  rw [flatMap_length_uniform _ ((2 * r + 1).toNat)
    (fun x => by rw [List.length_map, intRange_length]; congr 1; ring)]
  rw [intRange_length]
  have : b + r + 1 - (b - r) = 2 * r + 1 := by ring
  have h2 : a + r + 1 - (a - r) = 2 * r + 1 := by ring
  rw [h2]
  ring

theorem neighbors_getD (a b r : ℤ) (i j : ℕ) (hi : i < (2 * r + 1).toNat)
    (hj : j < (2 * r + 1).toNat) :
    (neighbors a b r).getD ((2 * r + 1).toNat * i + j) (0, 0) =
      (a - r + i, b - r + j) := by
  unfold neighbors
  have hlat : a + r + 1 - (a - r) = 2 * r + 1 := by ring
  have hlon : b + r + 1 - (b - r) = 2 * r + 1 := by ring
  rw [flatMap_getD_uniform _ ((2 * r + 1).toNat) (0, 0) 0
    (fun x => by rw [List.length_map, intRange_length, hlon])
    _ i j (by rw [intRange_length, hlat]; exact hi) hj]
  rw [intRange_getD _ _ i (by rwa [hlat])]
  have hj' : j < ((intRange (b - r) (b + r + 1)).map
      (fun y => (a - r + (i : ℤ), y))).length := by
    rw [List.length_map, intRange_length, hlon]; exact hj
  rw [List.getD_eq_getElem?_getD, List.getElem?_eq_getElem hj',
    Option.getD_some, List.getElem_map]
  have h2 := intRange_getD (b - r) (b + r + 1) j (by rwa [hlon])
  rw [List.getD_eq_getElem?_getD,
    List.getElem?_eq_getElem (by rw [intRange_length, hlon]; exact hj),
    Option.getD_some] at h2
  rw [h2]

/-- Claim C6 (counterexample): first, with `w = 0` the Python slice
`[-0:]` returns the whole window, so selection returns one cell instead of
at most zero; second, the all-ties window of nine equal order values may be
permuted arbitrarily by the non-stable default sort behind `numpy.argsort`,
so selection under one conforming argsort differs from the stable
generation-order tie-breaking the claim asserts. -/
theorem c6_select_counterexample :
    (select stableSortModel mStub rStub 0 (neighbors 0 0 0)).length = 1 ∧
    select badSortModel mStub rStub 21 (neighbors 0 0 1) ≠
      select_spec mStub rStub 21 (neighbors 0 0 1) := by
  constructor
  · decide
  · decide

/-- Claim C6 (amended): the sampler enumerates exactly the full
`(2r+1)²`-cell square window in row-major order (latitude-major ascending,
longitude-minor ascending); for `w ≥ 1`, selection returns exactly
`min w (2r+1)²` cells and the list of their order values is the tail of the
ascending sort of the window's order values (i.e. the `w` largest order
values); which cells carry tied order values, and their relative order, is
left to the unstable default sort of `numpy.argsort` (for `w = 0` the slice
`[-0:]` returns the whole window). -/
theorem c6_sampler_amended {σ : Type} (S : SortModel) (M : Md5Model) (R : RandModel σ)
    (a b r : ℤ) (w i j : ℕ) (hw : 1 ≤ w)
    (hi : i < (2 * r + 1).toNat) (hj : j < (2 * r + 1).toNat) :
    (neighbors a b r).length = (2 * r + 1).toNat ^ 2 ∧
    (neighbors a b r).getD ((2 * r + 1).toNat * i + j) (0, 0) =
      (a - r + i, b - r + j) ∧
    (select S M R w (neighbors a b r)).length = min w (neighbors a b r).length ∧
    (select S M R w (neighbors a b r)).map (order_value M R) =
      pySliceLast w (sortValues ((neighbors a b r).map (order_value M R))) :=
  ⟨neighbors_length a b r, neighbors_getD a b r i j hi hj,
   select_length S M R w _ hw, select_map_order S M R w _⟩

/-- Witness for C6 (amended) at the center `(0, 0)`, radius `2`, `w = 21`
with the stable conforming argsort and the concrete md5/random stand-ins. -/
theorem c6_sampler_amended_witness :
    (neighbors 0 0 2).length = ((2 : ℤ) * 2 + 1).toNat ^ 2 ∧
    (neighbors 0 0 2).getD (((2 : ℤ) * 2 + 1).toNat * 1 + 3) (0, 0) =
      (0 - 2 + 1, 0 - 2 + 3) ∧
    (select stableSortModel mStub rStub 21 (neighbors 0 0 2)).length =
      min 21 (neighbors 0 0 2).length ∧
    (select stableSortModel mStub rStub 21 (neighbors 0 0 2)).map
        (order_value mStub rStub) =
      pySliceLast 21 (sortValues ((neighbors 0 0 2).map (order_value mStub rStub))) :=
  c6_sampler_amended stableSortModel mStub rStub 0 0 2 21 1 3
    (by decide) (by decide) (by decide)

/-- Witness for C5 (amended) at concrete inputs. -/
theorem c5_absent_is_miss_invalid_raises_witness :
    (process mStub (fun _ => (.ok 42 : Except PyErr ℕ)) "AltGeoPreprocessor" ["r\n"] true .absent =
      ⟨.ok (some 42), .stored (gen_hash mStub ["r\n"] "AltGeoPreprocessor") (some 42), 1⟩) ∧
    process mStub (fun _ => (.ok 42 : Except PyErr ℕ)) "AltGeoPreprocessor" ["r\n"] true .invalid =
      ⟨.error .unpicklable, .invalid, 0⟩ :=
  ⟨(c5_absent_is_miss_invalid_raises mStub (fun _ => .ok 42) "AltGeoPreprocessor" ["r\n"] 42).1 rfl,
   (c5_absent_is_miss_invalid_raises mStub (fun _ => .ok 42) "AltGeoPreprocessor" ["r\n"] 42).2⟩

/-! ### The speed-dependent radius (`__radius`) -/

/-- Python 3 `round` at integer precision: round-half-to-even on the exact
value. -/
def pyRound (q : ℚ) : ℤ :=
  if q - ⌊q⌋ = 1 / 2 then (if Even ⌊q⌋ then ⌊q⌋ else ⌊q⌋ + 1) else round q

/-- `int(math.ceil((math.sqrt(self.w) - 1) / 2))`, with `math.sqrt`
idealised as the real square root. -/
noncomputable def min_radius (w : ℕ) : ℤ := ⌈(Real.sqrt w - 1) / 2⌉

/-- `NumentaPreprocessor.__radius`: `coordinates = speed*timestep/scale`,
`radius = int(round(coordinates/2*overlap))` with `overlap = 1.5`, floored
at the minimum radius. -/
noncomputable def radius (cfg : NumentaCfg) (speed : ℚ) : ℤ :=
  max (pyRound (speed * cfg.timestep / cfg.scale / 2 * (3 / 2))) (min_radius cfg.w)

theorem pyRound_zero : pyRound 0 = 0 := by
  unfold pyRound
  norm_num

theorem pyRound_bounds (q : ℚ) : ⌊q⌋ ≤ pyRound q ∧ pyRound q ≤ ⌊q⌋ + 1 := by
  unfold pyRound
  split
  · split <;> omega
  · rw [round_eq]
    constructor
    · exact Int.floor_mono (by linarith)
    · have h1 : q < ⌊q⌋ + 1 := Int.lt_floor_add_one q
      have : ⌊q + 1 / 2⌋ < ⌊q⌋ + 2 := by
        rw [Int.floor_lt]
        push_cast
        linarith
      omega

theorem pyRound_mono {q r : ℚ} (h : q ≤ r) : pyRound q ≤ pyRound r := by
  rcases eq_or_lt_of_le h with rfl | hlt
  · exact le_refl _
  rcases lt_or_ge ⌊q⌋ ⌊r⌋ with hf | hf
  · have h1 := (pyRound_bounds q).2
    have h2 := (pyRound_bounds r).1
    omega
  · have hfe : ⌊q⌋ = ⌊r⌋ := le_antisymm (Int.floor_mono h) hf
    by_cases hq : q - ⌊q⌋ = 1 / 2 <;> by_cases hr : r - ⌊r⌋ = 1 / 2
    · exfalso
      rw [hfe] at hq
      have : q = r := by linarith
      exact absurd this (ne_of_lt hlt)
    · have hq' : pyRound q ≤ ⌊q⌋ + 1 := (pyRound_bounds q).2
      have hrv : pyRound r = round r := if_neg hr
      have hrr : r > (⌊r⌋ : ℚ) + 1 / 2 := by
        rcases lt_or_ge ((⌊r⌋ : ℚ) + 1 / 2) r with h1 | h1
        · exact h1
        · exfalso
          rw [hfe] at hq
          have : q = (⌊r⌋ : ℚ) + 1 / 2 := by linarith
          have : r ≤ q := by linarith
          exact absurd hlt (not_lt.mpr this)
      have : (⌊q⌋ : ℤ) + 1 ≤ round r := by
        rw [round_eq, Int.le_floor]
        push_cast
        rw [hfe] at *
        push_cast at *
        linarith
      omega
    · have hqv : pyRound q = round q := if_neg hq
      have hr' : (⌊r⌋ : ℤ) ≤ pyRound r := (pyRound_bounds r).1
      have hqr : q < (⌊q⌋ : ℚ) + 1 / 2 := by
        have hle : q ≤ (⌊q⌋ : ℚ) + 1 / 2 := by
          rw [hfe]
          have : r = (⌊r⌋ : ℚ) + 1 / 2 := by linarith
          linarith
        rcases lt_or_eq_of_le hle with h1 | h1
        · exact h1
        · exact absurd (by linarith : q - (⌊q⌋ : ℚ) = 1 / 2) hq
      have : round q ≤ ⌊q⌋ := by
        have : ⌊q + 1 / 2⌋ < ⌊q⌋ + 1 := by
          rw [Int.floor_lt]
          push_cast
          linarith
        rw [round_eq]
        omega
      omega
    · have hqv : pyRound q = round q := by unfold pyRound; rw [if_neg hq]
      have hrv : pyRound r = round r := by unfold pyRound; rw [if_neg hr]
      rw [hqv, hrv, round_eq, round_eq]
      exact Int.floor_mono (by linarith)

theorem min_radius_nonneg (w : ℕ) : 0 ≤ min_radius w := by
  unfold min_radius
  have h : ((-1 : ℤ) : ℝ) < (Real.sqrt w - 1) / 2 := by
    have := Real.sqrt_nonneg (w : ℝ)
    push_cast
    linarith
  have := Int.lt_ceil.mpr h
  omega

/-- Claim C7: `radius(speed)` is `max(round(speed*timestep/scale/2*1.5),
ceil((sqrt(w)-1)/2))`; at `speed = 0` the minimum clamp is active; the
radius is non-decreasing in the speed; and the `(2*radius+1)²`-cell window
always contains at least `w` cells. -/
theorem c7_radius_formula (cfg : NumentaCfg) (hs : 0 < cfg.scale)
    (ht : 0 ≤ cfg.timestep) :
    (∀ speed : ℚ, radius cfg speed =
      max (pyRound (speed * cfg.timestep / cfg.scale / 2 * (3 / 2)))
        (min_radius cfg.w)) ∧
    min_radius cfg.w = ⌈(Real.sqrt cfg.w - 1) / 2⌉ ∧
    radius cfg 0 = min_radius cfg.w ∧
    (∀ s1 s2 : ℚ, 0 ≤ s1 → s1 ≤ s2 → radius cfg s1 ≤ radius cfg s2) ∧
    (∀ speed : ℚ, 0 ≤ speed → (cfg.w : ℤ) ≤ (2 * radius cfg speed + 1) ^ 2) := by
  refine ⟨fun _ => rfl, rfl, ?_, ?_, ?_⟩
  · unfold radius
    have h0 : (0 : ℚ) * cfg.timestep / cfg.scale / 2 * (3 / 2) = 0 := by
      ring
    rw [h0, pyRound_zero]
    exact max_eq_right (min_radius_nonneg cfg.w)
  · intro s1 s2 _ h12
    unfold radius
    refine max_le_max ?_ (le_refl _)
    apply pyRound_mono
    have hsc : (0 : ℚ) < (cfg.scale : ℚ) := by exact_mod_cast hs
    have htc : (0 : ℚ) ≤ (cfg.timestep : ℚ) := by exact_mod_cast ht
    have hk : (0 : ℚ) ≤ (cfg.timestep : ℚ) / (cfg.scale : ℚ) / 2 * (3 / 2) := by
      positivity
    calc s1 * cfg.timestep / cfg.scale / 2 * (3 / 2)
        = s1 * ((cfg.timestep : ℚ) / cfg.scale / 2 * (3 / 2)) := by ring
      _ ≤ s2 * ((cfg.timestep : ℚ) / cfg.scale / 2 * (3 / 2)) :=
          mul_le_mul_of_nonneg_right h12 hk
      _ = s2 * cfg.timestep / cfg.scale / 2 * (3 / 2) := by ring
  · intro speed _
    have h1 : min_radius cfg.w ≤ radius cfg speed := le_max_right _ _
    have h2 : (Real.sqrt cfg.w - 1) / 2 ≤ (min_radius cfg.w : ℝ) := Int.le_ceil _
    have h3 : Real.sqrt cfg.w ≤ 2 * ((radius cfg speed : ℤ) : ℝ) + 1 := by
      have hc : ((min_radius cfg.w : ℤ) : ℝ) ≤ ((radius cfg speed : ℤ) : ℝ) := by
        exact_mod_cast h1
      linarith
    have h4 : (cfg.w : ℝ) ≤ (2 * ((radius cfg speed : ℤ) : ℝ) + 1) ^ 2 := by
      have hp := pow_le_pow_left₀ (Real.sqrt_nonneg ((cfg.w : ℕ) : ℝ)) h3 2
      rwa [Real.sq_sqrt (by positivity : (0 : ℝ) ≤ ((cfg.w : ℕ) : ℝ))] at hp
    exact_mod_cast h4

/-- Witness for C7 at the default configuration
`scale=5, w=21, n=1000, timestep=10`. -/
theorem c7_radius_formula_witness :
    radius ⟨5, 21, 1000, 10⟩ 0 = min_radius 21 ∧
    radius ⟨5, 21, 1000, 10⟩ 0 ≤ radius ⟨5, 21, 1000, 10⟩ 3 ∧
    ((21 : ℕ) : ℤ) ≤ (2 * radius ⟨5, 21, 1000, 10⟩ 3 + 1) ^ 2 :=
  ⟨(c7_radius_formula ⟨5, 21, 1000, 10⟩ (by decide) (by decide)).2.2.1,
   (c7_radius_formula ⟨5, 21, 1000, 10⟩ (by decide) (by decide)).2.2.2.1 0 3
     (le_refl 0) (by norm_num),
   (c7_radius_formula ⟨5, 21, 1000, 10⟩ (by decide) (by decide)).2.2.2.2 3
     (by norm_num)⟩

/-! ### CoordinateProjector (`__map_transform`) and the spatial encoder
(`__generate_vector`, `NumentaPreprocessor._process`) -/

/-- Model of the `pyproj.Proj(init="epsg:3785")` forward projection: an
arbitrary function from geographic (longitude, latitude) to planar
coordinates. -/
structure ProjModel where
  proj : ℚ → ℚ → ℚ × ℚ

/-- Python `int(...)` applied to a number: truncation toward zero. -/
def pyInt (q : ℚ) : ℤ := if q < 0 then ⌈q⌉ else ⌊q⌋

/-- `NumentaPreprocessor.__map_transform`: `self.__map(longitude, latitude)`
re-binds `(longitude, latitude)` to the projected pair, then the method
returns `(int(latitude / scale), int(longitude / scale))`. -/
def map_transform (P : ProjModel) (cfg : NumentaCfg) (latitude longitude : ℚ) :
    ℤ × ℤ :=
  (pyInt ((P.proj longitude latitude).2 / (cfg.scale : ℚ)),
   pyInt ((P.proj longitude latitude).1 / (cfg.scale : ℚ)))

/-- The bit indices assigned to the selected neighbors of a record
(`indices = np.array([self.__coordinate_bit(w[0], w[1]) for w in top])`). -/
noncomputable def selected_bits {σ : Type} (S : SortModel) (M : Md5Model)
    (R : RandModel σ) (P : ProjModel) (cfg : NumentaCfg) (rec : Record) : List ℤ :=
  (select S M R cfg.w
    (neighbors (map_transform P cfg rec.latitude rec.longitude).1
      (map_transform P cfg rec.latitude rec.longitude).2
      (radius cfg rec.speed))).map (bit_index M R cfg.n)

/-- `NumentaPreprocessor.__generate_vector`: zero the `n`-length output,
then set `output[indices] = 1` — numpy fancy-index assignment, for which
duplicate indices collapse idempotently. -/
noncomputable def generate_vector {σ : Type} (S : SortModel) (M : Md5Model)
    (R : RandModel σ) (P : ProjModel) (cfg : NumentaCfg) (rec : Record) : List ℕ :=
  (List.range cfg.n).map
    (fun (i : ℕ) => if (i : ℤ) ∈ selected_bits S M R P cfg rec then 1 else 0)

/-- `NumentaPreprocessor._process`: one encoding vector per CSV row, in row
order (the `cache['data']` batch). -/
noncomputable def numenta_process {σ : Type} (S : SortModel) (M : Md5Model)
    (R : RandModel σ) (P : ProjModel) (cfg : NumentaCfg)
    (records : List Record) : List (List ℕ) :=
  records.map (generate_vector S M R P cfg)

theorem filter_mem_int_length_le (idxs : List ℤ) (n : ℕ) :
    ((List.range n).filter
      (fun (i : ℕ) => decide ((i : ℤ) ∈ idxs))).length ≤ idxs.length := by
  have hFnodup : ((List.range n).filter
      (fun (i : ℕ) => decide ((i : ℤ) ∈ idxs))).Nodup :=
    (List.nodup_range n).filter _
  have hmap : (((List.range n).filter
      (fun (i : ℕ) => decide ((i : ℤ) ∈ idxs))).map (fun (i : ℕ) => (i : ℤ))).Nodup :=
    hFnodup.map (fun a b h => by exact_mod_cast h)
  have hsub : (((List.range n).filter
      (fun (i : ℕ) => decide ((i : ℤ) ∈ idxs))).map (fun (i : ℕ) => (i : ℤ))).toFinset ⊆
      idxs.toFinset := by
    intro x hx
    rw [List.mem_toFinset] at hx
    rw [List.mem_toFinset]
    obtain ⟨i, hi, rfl⟩ := List.mem_map.mp hx
    have := List.mem_filter.mp hi
    simpa using this.2
  calc ((List.range n).filter (fun (i : ℕ) => decide ((i : ℤ) ∈ idxs))).length
      = (((List.range n).filter
          (fun (i : ℕ) => decide ((i : ℤ) ∈ idxs))).map (fun (i : ℕ) => (i : ℤ))).length := by
        rw [List.length_map]
    _ = (((List.range n).filter
          (fun (i : ℕ) => decide ((i : ℤ) ∈ idxs))).map (fun (i : ℕ) => (i : ℤ))).toFinset.card :=
        (List.toFinset_card_of_nodup hmap).symm
    _ ≤ idxs.toFinset.card := Finset.card_le_card hsub
    _ ≤ idxs.length := idxs.toFinset_card_le

theorem selected_bits_length_le {σ : Type} (S : SortModel) (M : Md5Model)
    (R : RandModel σ) (P : ProjModel) (cfg : NumentaCfg) (rec : Record)
    (hw : 1 ≤ cfg.w) : (selected_bits S M R P cfg rec).length ≤ cfg.w := by
  unfold selected_bits
  rw [List.length_map, select_length S M R cfg.w _ hw]
  exact min_le_left _ _

/-- Claim C8: the spatial encoding of any record has exactly `n` positions,
each position is `0` or `1`, position `i` is set exactly when `i` is one of
the bit indices of the selected neighbors (so setting an already-set bit is
idempotent and no bit is cleared), and the number of set bits is at most
`w`. -/
theorem c8_sparse_vector {σ : Type} (S : SortModel) (M : Md5Model)
    (R : RandModel σ) (P : ProjModel) (cfg : NumentaCfg) (rec : Record)
    (hw : 1 ≤ cfg.w) :
    (generate_vector S M R P cfg rec).length = cfg.n ∧
    (∀ x ∈ generate_vector S M R P cfg rec, x = 0 ∨ x = 1) ∧
    (∀ i : ℕ, i < cfg.n →
      ((generate_vector S M R P cfg rec).getD i 0 = 1 ↔
        (i : ℤ) ∈ selected_bits S M R P cfg rec)) ∧
    (generate_vector S M R P cfg rec).count 1 ≤ cfg.w := by
  refine ⟨by simp [generate_vector], ?_, ?_, ?_⟩
  · intro x hx
    rw [generate_vector, List.mem_map] at hx
    obtain ⟨i, _, hi⟩ := hx
    by_cases hmem : (i : ℤ) ∈ selected_bits S M R P cfg rec
    · right; rw [← hi, if_pos hmem]
    · left; rw [← hi, if_neg hmem]
  · intro i hi
    have hlen : i < (List.range cfg.n).length := by simpa using hi
    rw [generate_vector, List.getD_eq_getElem?_getD,
      List.getElem?_eq_getElem (by simpa using hi), Option.getD_some,
      List.getElem_map, List.getElem_range]
    by_cases hmem : (i : ℤ) ∈ selected_bits S M R P cfg rec
    · simp [hmem]
    · simp [hmem]
  · have hcount : (generate_vector S M R P cfg rec).count 1 =
        ((List.range cfg.n).filter
          (fun (i : ℕ) => decide ((i : ℤ) ∈ selected_bits S M R P cfg rec))).length := by
      rw [generate_vector, List.count_eq_countP, List.countP_map,
        ← List.countP_eq_length_filter]
      congr 1
      funext i
      by_cases hmem : (i : ℤ) ∈ selected_bits S M R P cfg rec
      · simp [hmem]
      · simp [hmem]
    rw [hcount]
    exact le_trans
      (filter_mem_int_length_le (selected_bits S M R P cfg rec) cfg.n)
      (selected_bits_length_le S M R P cfg rec hw)

/-- A trivial concrete projection stand-in used for witnesses. -/
def pStub : ProjModel where
  proj x y := (x, y)

/-- Witness for C8 at the default configuration and the record
`(speed=0, latitude=40.0, longitude=-73.0)`. -/
theorem c8_sparse_vector_witness :
    (generate_vector stableSortModel mStub rStub pStub ⟨5, 21, 1000, 10⟩
      ⟨0, 40, -73⟩).length = 1000 ∧
    (generate_vector stableSortModel mStub rStub pStub ⟨5, 21, 1000, 10⟩
      ⟨0, 40, -73⟩).count 1 ≤ 21 :=
  ⟨(c8_sparse_vector stableSortModel mStub rStub pStub ⟨5, 21, 1000, 10⟩
      ⟨0, 40, -73⟩ (by decide)).1,
   (c8_sparse_vector stableSortModel mStub rStub pStub ⟨5, 21, 1000, 10⟩
      ⟨0, 40, -73⟩ (by decide)).2.2.2⟩

/-! ### DigitOneHotEncoder (`AltGeoPreprocessor`) -/

/-- `gconst = 10 ** g_prec; gdigits = len(str(int(360 * gconst)))` — an
exact integer computation. -/
def gdigits (cfg : AltCfg) : ℕ := (toString (360 * 10 ^ cfg.g_prec : ℕ)).length

/-- `sconst = 10 ** s_prec; sdigits = len(str(int(self.s_max * sconst)))`
(Python `int()` truncates toward zero). -/
def sdigits (cfg : AltCfg) : ℕ :=
  (toString (pyInt (cfg.s_max * (10 : ℚ) ^ cfg.s_prec))).length

/-- The three scaled integers of one record:
`int(np.floor((latitude + 90) * gconst))`,
`int(np.floor((longitude + 180) * gconst))`,
`int(np.floor(speed * sconst))`. -/
def scaled (cfg : AltCfg) (r : Record) : ℤ × ℤ × ℤ :=
  (⌊(r.latitude + 90) * (10 : ℚ) ^ cfg.g_prec⌋,
   ⌊(r.longitude + 180) * (10 : ℚ) ^ cfg.g_prec⌋,
   ⌊r.speed * (10 : ℚ) ^ cfg.s_prec⌋)

/-- The decimal digit string `str(int(np.floor((latitude + 90) * gconst)))`
of a record, as its character list. -/
def lat_str (cfg : AltCfg) (r : Record) : List Char :=
  (toString (scaled cfg r).1).data

/-- The decimal digit string of the shifted, scaled longitude. -/
def lon_str (cfg : AltCfg) (r : Record) : List Char :=
  (toString (scaled cfg r).2.1).data

/-- The decimal digit string of the scaled speed. -/
def spd_str (cfg : AltCfg) (r : Record) : List Char :=
  (toString (scaled cfg r).2.2).data

/-- One all-zero 10-wide one-hot block (`np.zeros((k, 10))` row). -/
def zeroRow : List ℕ := List.replicate 10 0

/-- A 10-wide one-hot block with bit `d` set (`mat[j][d] = 1`). -/
def oneHotRow (d : ℕ) : List ℕ := zeroRow.set d 1

/-- `np.zeros((k, 10))` as a list of rows. -/
def zeroRows (k : ℕ) : List (List ℕ) := List.replicate k zeroRow

/-- `AltGeoPreprocessor.__encode`: walk the digit string, setting
`mat[j][int(i)] = 1` for successive rows `j`.  `mat[j]` raises `IndexError`
once the string is longer than the matrix; `int(i)` raises `ValueError` on
a non-digit character (`mat[j]` is evaluated before `int(i)`). -/
def encode : List Char → List (List ℕ) → Except PyErr (List (List ℕ))
  | [], mat => .ok mat
  | _ :: _, [] => .error .indexError
  | c :: cs, row :: rest =>
    if c.isDigit then
      match encode cs rest with
      | .error e => .error e
      | .ok rest2 => .ok (row.set (c.toNat - 48) 1 :: rest2)
    else .error .valueError

/-- The per-record body of `AltGeoPreprocessor._process`: encode the three
digit strings into `np.zeros` matrices of widths `gdigits`, `gdigits`,
`sdigits`, then concatenate the row-major flattenings
`np.concatenate((np.reshape(lat, -1), np.reshape(long, -1), np.reshape(spd, -1)))`. -/
def alt_encode_digits (gd sd : ℕ) (lat lon spd : List Char) :
    Except PyErr (List ℕ) :=
  match encode lat (zeroRows gd) with
  | .error e => .error e
  | .ok latM =>
    match encode lon (zeroRows gd) with
    | .error e => .error e
    | .ok lonM =>
      match encode spd (zeroRows sd) with
      | .error e => .error e
      | .ok spdM => .ok (latM.flatten ++ lonM.flatten ++ spdM.flatten)

/-- The encoding vector of one record under `AltGeoPreprocessor._process`. -/
def alt_encode_record (cfg : AltCfg) (r : Record) : Except PyErr (List ℕ) :=
  alt_encode_digits (gdigits cfg) (sdigits cfg)
    (lat_str cfg r) (lon_str cfg r) (spd_str cfg r)

/-- `AltGeoPreprocessor._process`: the batch loop over the CSV rows in
order; the first exception aborts the whole batch. -/
def altgeo_process (cfg : AltCfg) : List Record → Except PyErr (List (List ℕ))
  | [] => .ok []
  | r :: rs =>
    match alt_encode_record cfg r with
    | .error e => .error e
    | .ok v =>
      match altgeo_process cfg rs with
      | .error e => .error e
      | .ok vs => .ok (v :: vs)

/-- Whether a record's three digit strings fit the precomputed one-hot
layout: all characters are decimal digits and no string exceeds its
matrix width. -/
def record_fits (cfg : AltCfg) (r : Record) : Bool :=
  (lat_str cfg r).all Char.isDigit &&
  decide ((lat_str cfg r).length ≤ gdigits cfg) &&
  (lon_str cfg r).all Char.isDigit &&
  decide ((lon_str cfg r).length ≤ gdigits cfg) &&
  (spd_str cfg r).all Char.isDigit &&
  decide ((spd_str cfg r).length ≤ sdigits cfg)

theorem zeroRow_length : zeroRow.length = 10 := by decide

theorem oneHotRow_length (d : ℕ) : (oneHotRow d).length = 10 := by
  simp [oneHotRow, zeroRow]

theorem oneHotRow_sum (d : ℕ) (hd : d < 10) : (oneHotRow d).sum = 1 := by
  unfold oneHotRow zeroRow
  interval_cases d <;> decide

theorem zeroRow_sum : zeroRow.sum = 0 := by decide

theorem mem_oneHotRow (x d : ℕ) (h : x ∈ oneHotRow d) : x = 0 ∨ x = 1 := by
  rcases List.mem_or_eq_of_mem_set h with h1 | h1
  · exact Or.inl (List.eq_of_mem_replicate h1)
  · exact Or.inr h1

theorem mem_zeroRow (x : ℕ) (h : x ∈ zeroRow) : x = 0 :=
  List.eq_of_mem_replicate h

theorem isDigit_sub_lt (c : Char) (h : c.isDigit = true) : c.toNat - 48 < 10 := by
  simp only [Char.isDigit, Bool.and_eq_true, decide_eq_true_eq, ge_iff_le] at h
  obtain ⟨_, h2⟩ := h
  have h2n : c.toNat ≤ 57 := by exact_mod_cast h2
  omega

theorem getD_replicate {α : Type} (n k : ℕ) (x d : α) (h : k < n) :
    (List.replicate n x).getD k d = x := by
  rw [List.getD_eq_getElem?_getD, List.getElem?_eq_getElem (by simpa using h)]
  simp

theorem getD_mem {α : Type} (l : List α) (k : ℕ) (d : α) (h : k < l.length) :
    l.getD k d ∈ l := by
  rw [List.getD_eq_getElem?_getD, List.getElem?_eq_getElem h]
  exact List.getElem_mem h

/-- What a successful `__encode` run guarantees: the string fits the
matrix, every character is a digit, the shape is preserved, and row `j`
is the one-hot block of digit `j` for `j` within the string and an
untouched zero block past its end (the source never pads). -/
theorem encode_ok_spec :
    ∀ (s : List Char) (k : ℕ) (mat : List (List ℕ)),
      encode s (zeroRows k) = .ok mat →
      s.length ≤ k ∧ (∀ c ∈ s, c.isDigit = true) ∧ mat.length = k ∧
      ∀ j, j < k → mat.getD j [] =
        if j < s.length then oneHotRow ((s.getD j '0').toNat - 48) else zeroRow
  | [], k, mat, h => by
    have hm : mat = zeroRows k := by
      simpa [encode] using h.symm
    subst hm
    refine ⟨Nat.zero_le k, by simp, by simp [zeroRows], fun j hj => ?_⟩
    simp only [List.length_nil, Nat.not_lt_zero, if_false]
    exact getD_replicate k j zeroRow [] hj
  | c :: cs, 0, mat, h => by
    simp [encode, zeroRows] at h
  | c :: cs, k + 1, mat, h => by
    rw [zeroRows, List.replicate_succ] at h
    by_cases hc : c.isDigit
    · rw [encode, if_pos hc] at h
      cases hrec : encode cs (List.replicate k zeroRow) with
      | error e => rw [hrec] at h; simp at h
      | ok rest2 =>
        rw [hrec] at h
        simp only [Except.ok.injEq] at h
        subst h
        obtain ⟨ih1, ih2, ih3, ih4⟩ := encode_ok_spec cs k rest2 hrec
        refine ⟨by simpa using ih1, ?_, by simpa using ih3, fun j hj => ?_⟩
        · intro x hx
          rcases List.mem_cons.mp hx with rfl | hx2
          · exact hc
          · exact ih2 x hx2
        · cases j with
          | zero => simp [oneHotRow]
          | succ j =>
            have := ih4 j (by omega)
            simpa [List.getD_cons_succ] using this
    · rw [encode, if_neg hc] at h
      simp at h

theorem encode_ok_rows (s : List Char) (k : ℕ) (mat : List (List ℕ))
    (h : encode s (zeroRows k) = .ok mat) :
    ∀ row ∈ mat, (∃ d, d < 10 ∧ row = oneHotRow d) ∨ row = zeroRow := by
  obtain ⟨_, h2, h3, h4⟩ := encode_ok_spec s k mat h
  intro row hrow
  obtain ⟨j, hj, hje⟩ := List.mem_iff_getElem.mp hrow
  have hjd : mat.getD j [] = row := by
    rw [List.getD_eq_getElem?_getD, List.getElem?_eq_getElem hj, Option.getD_some, hje]
  rw [h4 j (by omega)] at hjd
  by_cases hjs : j < s.length
  · rw [if_pos hjs] at hjd
    exact Or.inl ⟨(s.getD j '0').toNat - 48,
      isDigit_sub_lt _ (h2 _ (getD_mem s j '0' hjs)), hjd.symm⟩
  · rw [if_neg hjs] at hjd
    exact Or.inr hjd.symm

theorem encode_ok_row_length (s : List Char) (k : ℕ) (mat : List (List ℕ))
    (h : encode s (zeroRows k) = .ok mat) : ∀ row ∈ mat, row.length = 10 := by
  intro row hrow
  rcases encode_ok_rows s k mat h row hrow with ⟨d, _, rfl⟩ | rfl
  · exact oneHotRow_length d
  · exact zeroRow_length

theorem flatten_length_uniform (rows : List (List ℕ))
    (h : ∀ r ∈ rows, r.length = 10) : rows.flatten.length = 10 * rows.length := by
  rw [List.length_flatten]
  induction rows with
  | nil => simp
  | cons r rs ih =>
    rw [List.map_cons, List.sum_cons, h r (by simp),
      ih (fun x hx => h x (by simp [hx]))]
    simp [List.length_cons]
    ring

theorem flatten_block (rows : List (List ℕ)) (h : ∀ r ∈ rows, r.length = 10) :
    ∀ k, k < rows.length → (rows.flatten.drop (10 * k)).take 10 = rows.getD k [] := by
  induction rows with
  | nil => intro k hk; simp at hk
  | cons r rs ih =>
    intro k hk
    cases k with
    | zero =>
      rw [Nat.mul_zero, List.drop_zero, List.flatten_cons]
      have hr := h r (by simp)
      rw [← hr, List.take_left]
      simp
    | succ k =>
      have hr := h r (by simp)
      have hstep : 10 * (k + 1) = r.length + 10 * k := by rw [hr]; ring
      rw [List.flatten_cons, hstep, List.drop_append,
        ih (fun x hx => h x (by simp [hx])) k (by simpa using hk)]
      simp [List.getD_cons_succ]

theorem take10_drop_append (A X : List ℕ) (k : ℕ) (h : 10 * k + 10 ≤ A.length) :
    ((A ++ X).drop (10 * k)).take 10 = (A.drop (10 * k)).take 10 := by
  rw [List.drop_append_of_le_length (by omega), List.take_append_eq_append_take]
  have h1 : 10 - (A.drop (10 * k)).length = 0 := by
    rw [List.length_drop]; omega
  rw [h1, List.take_zero, List.append_nil]

theorem encode_block_sum (s : List Char) (k : ℕ) (mat : List (List ℕ))
    (h : encode s (zeroRows k) = .ok mat) (j : ℕ) (hj : j < k) :
    ((mat.flatten.drop (10 * j)).take 10).sum = if j < s.length then 1 else 0 := by
  have hrows := encode_ok_row_length s k mat h
  obtain ⟨_, h2, h3, h4⟩ := encode_ok_spec s k mat h
  rw [flatten_block mat hrows j (by omega), h4 j hj]
  split
  · next hs => exact oneHotRow_sum _ (isDigit_sub_lt _ (h2 _ (getD_mem s j '0' hs)))
  · exact zeroRow_sum

theorem alt_encode_record_ok (cfg : AltCfg) (r : Record) (v : List ℕ)
    (h : alt_encode_record cfg r = .ok v) :
    ∃ latM lonM spdM,
      encode (lat_str cfg r) (zeroRows (gdigits cfg)) = .ok latM ∧
      encode (lon_str cfg r) (zeroRows (gdigits cfg)) = .ok lonM ∧
      encode (spd_str cfg r) (zeroRows (sdigits cfg)) = .ok spdM ∧
      v = latM.flatten ++ lonM.flatten ++ spdM.flatten := by
  unfold alt_encode_record alt_encode_digits at h
  cases h1 : encode (lat_str cfg r) (zeroRows (gdigits cfg)) with
  | error e => rw [h1] at h; simp at h
  | ok latM =>
    rw [h1] at h
    cases h2 : encode (lon_str cfg r) (zeroRows (gdigits cfg)) with
    | error e => rw [h2] at h; simp at h
    | ok lonM =>
      rw [h2] at h
      cases h3 : encode (spd_str cfg r) (zeroRows (sdigits cfg)) with
      | error e => rw [h3] at h; simp at h
      | ok spdM =>
        rw [h3] at h
        simp only [Except.ok.injEq] at h
        exact ⟨latM, lonM, spdM, rfl, rfl, rfl, h.symm⟩

/-- Claim C4 (amended): on a successful run the digit encoder's vector has
length `2*gdigits*10 + sdigits*10` and its entries are bits; the three
digit strings never exceed their matrix widths (else the run raises); and
each 10-wide block has exactly one set bit when its index is within the
record's digit string, but is all-zero past the string's end — the source
does not zero-pad short strings, so records whose scaled digit strings are
shorter than `gdigits`/`sdigits` produce all-zero trailing blocks. -/
theorem c4_digit_blocks_amended (cfg : AltCfg) (r : Record) (v : List ℕ)
    (h : alt_encode_record cfg r = .ok v) :
    v.length = 2 * gdigits cfg * 10 + sdigits cfg * 10 ∧
    (∀ x ∈ v, x = 0 ∨ x = 1) ∧
    (lat_str cfg r).length ≤ gdigits cfg ∧
    (lon_str cfg r).length ≤ gdigits cfg ∧
    (spd_str cfg r).length ≤ sdigits cfg ∧
    (∀ k, k < gdigits cfg → ((v.drop (10 * k)).take 10).sum =
      if k < (lat_str cfg r).length then 1 else 0) ∧
    (∀ k, k < gdigits cfg → ((v.drop (10 * (gdigits cfg + k))).take 10).sum =
      if k < (lon_str cfg r).length then 1 else 0) ∧
    (∀ k, k < sdigits cfg → ((v.drop (10 * (2 * gdigits cfg + k))).take 10).sum =
      if k < (spd_str cfg r).length then 1 else 0) := by
  obtain ⟨latM, lonM, spdM, h1, h2, h3, rfl⟩ := alt_encode_record_ok cfg r v h
  have U1 := encode_ok_row_length _ _ _ h1
  have U2 := encode_ok_row_length _ _ _ h2
  have U3 := encode_ok_row_length _ _ _ h3
  have L1 : latM.flatten.length = 10 * gdigits cfg := by
    rw [flatten_length_uniform _ U1, (encode_ok_spec _ _ _ h1).2.2.1]
  have L2 : lonM.flatten.length = 10 * gdigits cfg := by
    rw [flatten_length_uniform _ U2, (encode_ok_spec _ _ _ h2).2.2.1]
  have L3 : spdM.flatten.length = 10 * sdigits cfg := by
    rw [flatten_length_uniform _ U3, (encode_ok_spec _ _ _ h3).2.2.1]
  refine ⟨?_, ?_, (encode_ok_spec _ _ _ h1).1, (encode_ok_spec _ _ _ h2).1,
    (encode_ok_spec _ _ _ h3).1, ?_, ?_, ?_⟩
  · rw [List.length_append, List.length_append, L1, L2, L3]
    ring
  · intro x hx
    have hrow : ∀ (mat : List (List ℕ)),
        (∀ row ∈ mat, (∃ d, d < 10 ∧ row = oneHotRow d) ∨ row = zeroRow) →
        x ∈ mat.flatten → x = 0 ∨ x = 1 := by
      intro mat hm hxm
      obtain ⟨row, hrm, hxr⟩ := List.mem_flatten.mp hxm
      rcases hm row hrm with ⟨d, _, rfl⟩ | rfl
      · exact mem_oneHotRow x d hxr
      · exact Or.inl (mem_zeroRow x hxr)
    rcases List.mem_append.mp hx with hx1 | hx1
    · rcases List.mem_append.mp hx1 with hx2 | hx2
      · exact hrow latM (encode_ok_rows _ _ _ h1) hx2
      · exact hrow lonM (encode_ok_rows _ _ _ h2) hx2
    · exact hrow spdM (encode_ok_rows _ _ _ h3) hx1
  · intro k hk
    rw [take10_drop_append _ _ _ (by rw [List.length_append, L1, L2]; omega),
      take10_drop_append _ _ _ (by rw [L1]; omega)]
    exact encode_block_sum _ _ _ h1 k hk
  · intro k hk
    rw [List.append_assoc]
    have hidx : 10 * (gdigits cfg + k) = latM.flatten.length + 10 * k := by
      rw [L1]; ring
    rw [hidx, List.drop_append,
      take10_drop_append _ _ _ (by rw [L2]; omega)]
    exact encode_block_sum _ _ _ h2 k hk
  · intro k hk
    rw [List.append_assoc]
    have hidx : 10 * (2 * gdigits cfg + k) =
        latM.flatten.length + (lonM.flatten.length + 10 * k) := by
      rw [L1, L2]; ring
    rw [hidx, List.drop_append, List.drop_append]
    exact encode_block_sum _ _ _ h3 k hk

theorem gdigits_default : gdigits ⟨6, 1, 140⟩ = 9 := by decide

theorem sdigits_default : sdigits ⟨6, 1, 140⟩ = 4 := by
  show (toString (pyInt ((140 : ℚ) * (10 : ℚ) ^ (1 : ℕ)))).length = 4
  unfold pyInt
  rw [if_neg (by norm_num),
    show (⌊(140 : ℚ) * (10 : ℚ) ^ (1 : ℕ)⌋ : ℤ) = 1400 by
      rw [Int.floor_eq_iff] <;> norm_num]
  decide

theorem scaled_zero_record : scaled ⟨6, 1, 140⟩ ⟨0, -90, -180⟩ = (0, 0, 0) := by
  show (⌊((-90 : ℚ) + 90) * (10 : ℚ) ^ (6 : ℕ)⌋,
        ⌊((-180 : ℚ) + 180) * (10 : ℚ) ^ (6 : ℕ)⌋,
        ⌊(0 : ℚ) * (10 : ℚ) ^ (1 : ℕ)⌋) = ((0 : ℤ), (0 : ℤ), (0 : ℤ))
  simp only [Prod.mk.injEq]
  refine ⟨?_, ?_, ?_⟩ <;> (rw [Int.floor_eq_iff] <;> norm_num)

theorem lat_str_zero_record : lat_str ⟨6, 1, 140⟩ ⟨0, -90, -180⟩ = ['0'] := by
  unfold lat_str
  rw [scaled_zero_record]
  rfl

theorem lon_str_zero_record : lon_str ⟨6, 1, 140⟩ ⟨0, -90, -180⟩ = ['0'] := by
  unfold lon_str
  rw [scaled_zero_record]
  rfl

theorem spd_str_zero_record : spd_str ⟨6, 1, 140⟩ ⟨0, -90, -180⟩ = ['0'] := by
  unfold spd_str
  rw [scaled_zero_record]
  rfl

/-- Claim C4 (counterexample): under the default configuration
`g_prec=6, s_prec=1, s_max=140`, the record `(0, -90, -180)` scales to the
digit strings `"0", "0", "0"`; the encoder succeeds and the vector has the
claimed length `2*9*10 + 4*10 = 220`, but the second 10-wide block (the
second latitude digit block) has zero set bits — not exactly one — because
the source does not zero-pad digit strings shorter than the precomputed
width. -/
theorem c4_short_string_counterexample :
    (alt_encode_record ⟨6, 1, 140⟩ ⟨0, -90, -180⟩).map
      (fun v => (v.length, ((v.drop 10).take 10).sum)) = .ok (220, 0) := by
  unfold alt_encode_record
  rw [lat_str_zero_record, lon_str_zero_record, spd_str_zero_record,
    gdigits_default, sdigits_default]
  rfl

/-- Witness for C4 (amended) at the default configuration and the record
`(0, -90, -180)` (the hypothesis of the amended claim is discharged by
running the encoder). -/
theorem c4_digit_blocks_amended_witness :
    (alt_encode_record ⟨6, 1, 140⟩ ⟨0, -90, -180⟩).map List.length = .ok 220 := by
  obtain ⟨v, hv⟩ : ∃ v, alt_encode_record ⟨6, 1, 140⟩ ⟨0, -90, -180⟩ = .ok v := by
    unfold alt_encode_record
    rw [lat_str_zero_record, lon_str_zero_record, spd_str_zero_record,
      gdigits_default, sdigits_default]
    exact ⟨_, rfl⟩
  rw [hv]
  have hlen := (c4_digit_blocks_amended ⟨6, 1, 140⟩ ⟨0, -90, -180⟩ v hv).1
  rw [Except.map, hlen, gdigits_default, sdigits_default]

/-! ### Row-order preservation (both `_process` loops) -/

theorem altgeo_process_ok (cfg : AltCfg) :
    ∀ (records : List Record) (vs : List (List ℕ)),
      altgeo_process cfg records = .ok vs →
      vs.length = records.length ∧
      ∀ i, i < records.length →
        alt_encode_record cfg (records.getD i ⟨0, 0, 0⟩) = .ok (vs.getD i [])
  | [], vs, h => by
    have hvs : vs = [] := by simpa [altgeo_process] using h.symm
    subst hvs
    exact ⟨rfl, fun i hi => absurd hi (by simp)⟩
  | r :: rs, vs, h => by
    unfold altgeo_process at h
    cases h1 : alt_encode_record cfg r with
    | error e => rw [h1] at h; simp at h
    | ok v =>
      rw [h1] at h
      cases h2 : altgeo_process cfg rs with
      | error e => rw [h2] at h; simp at h
      | ok vs2 =>
        rw [h2] at h
        simp only [Except.ok.injEq] at h
        subst h
        obtain ⟨ih1, ih2⟩ := altgeo_process_ok cfg rs vs2 h2
        refine ⟨by simp [ih1], fun i hi => ?_⟩
        cases i with
        | zero => simpa using h1
        | succ i => simpa [List.getD_cons_succ] using ih2 i (by simpa using hi)

/-- Claim C9: both encoders produce one output row per input row, in input
order — the Numenta batch is literally the map of the per-record encoder
over the rows, and a successful digit-encoder batch has the same length as
the input and its `i`-th row is the encoding of the `i`-th record. -/
theorem c9_row_order {σ : Type} (S : SortModel) (M : Md5Model) (R : RandModel σ)
    (P : ProjModel) (ncfg : NumentaCfg) (acfg : AltCfg)
    (records records2 : List Record) :
    (numenta_process S M R P ncfg records).length = records.length ∧
    (∀ i, i < records.length →
      (numenta_process S M R P ncfg records).getD i [] =
        generate_vector S M R P ncfg (records.getD i ⟨0, 0, 0⟩)) ∧
    (∀ vs, altgeo_process acfg records2 = .ok vs →
      vs.length = records2.length ∧
      ∀ i, i < records2.length →
        alt_encode_record acfg (records2.getD i ⟨0, 0, 0⟩) = .ok (vs.getD i [])) := by
  refine ⟨by simp [numenta_process], fun i hi => ?_,
    fun vs h => altgeo_process_ok acfg records2 vs h⟩
  unfold numenta_process
  rw [List.getD_eq_getElem?_getD,
    List.getElem?_eq_getElem (by simpa using hi), Option.getD_some,
    List.getElem_map, List.getD_eq_getElem?_getD,
    List.getElem?_eq_getElem hi, Option.getD_some]

/-- Witness for C9: a one-record Numenta batch and the empty digit-encoder
batch at concrete configurations. -/
theorem c9_row_order_witness :
    (numenta_process stableSortModel mStub rStub pStub ⟨5, 21, 1000, 10⟩
      [⟨0, 40, -73⟩]).length = 1 ∧
    (numenta_process stableSortModel mStub rStub pStub ⟨5, 21, 1000, 10⟩
        [⟨0, 40, -73⟩]).getD 0 [] =
      generate_vector stableSortModel mStub rStub pStub ⟨5, 21, 1000, 10⟩
        (([⟨0, 40, -73⟩] : List Record).getD 0 ⟨0, 0, 0⟩) ∧
    ([] : List (List ℕ)).length = ([] : List Record).length :=
  ⟨(c9_row_order stableSortModel mStub rStub pStub ⟨5, 21, 1000, 10⟩ ⟨6, 1, 140⟩
      [⟨0, 40, -73⟩] []).1,
   (c9_row_order stableSortModel mStub rStub pStub ⟨5, 21, 1000, 10⟩ ⟨6, 1, 140⟩
      [⟨0, 40, -73⟩] []).2.1 0 (by decide),
   ((c9_row_order stableSortModel mStub rStub pStub ⟨5, 21, 1000, 10⟩ ⟨6, 1, 140⟩
      [⟨0, 40, -73⟩] []).2.2 [] rfl).1⟩

/-! ### Overflowing or non-digit records abort the digit encoder -/

theorem encode_error_of_unfit (s : List Char) (k : ℕ)
    (hbad : ¬(s.all Char.isDigit = true ∧ s.length ≤ k)) :
    ∃ e, encode s (zeroRows k) = .error e := by
  cases h : encode s (zeroRows k) with
  | error e => exact ⟨e, rfl⟩
  | ok mat =>
    obtain ⟨hl, hd, _, _⟩ := encode_ok_spec s k mat h
    exact absurd ⟨List.all_eq_true.mpr fun c hc => hd c hc, hl⟩ hbad

theorem alt_encode_error_of_unfit (cfg : AltCfg) (r : Record)
    (hbad : record_fits cfg r = false) :
    ∃ e, alt_encode_record cfg r = .error e := by
  unfold alt_encode_record alt_encode_digits
  cases h1 : encode (lat_str cfg r) (zeroRows (gdigits cfg)) with
  | error e => exact ⟨e, rfl⟩
  | ok latM =>
    cases h2 : encode (lon_str cfg r) (zeroRows (gdigits cfg)) with
    | error e => exact ⟨e, rfl⟩
    | ok lonM =>
      cases h3 : encode (spd_str cfg r) (zeroRows (sdigits cfg)) with
      | error e => exact ⟨e, rfl⟩
      | ok spdM =>
        exfalso
        have s1 := encode_ok_spec _ _ _ h1
        have s2 := encode_ok_spec _ _ _ h2
        have s3 := encode_ok_spec _ _ _ h3
        have : record_fits cfg r = true := by
          unfold record_fits
          simp only [Bool.and_eq_true, List.all_eq_true, decide_eq_true_eq]
          exact ⟨⟨⟨⟨⟨fun c hc => s1.2.1 c hc, s1.1⟩, fun c hc => s2.2.1 c hc⟩,
            s2.1⟩, fun c hc => s3.2.1 c hc⟩, s3.1⟩
        rw [this] at hbad
        exact absurd hbad (by simp)

theorem altgeo_error_of_mem (cfg : AltCfg) :
    ∀ (records : List Record) (r : Record), r ∈ records →
      record_fits cfg r = false →
      ∃ e, altgeo_process cfg records = .error e
  | [], r, hr, _ => absurd hr (List.not_mem_nil r)
  | q :: rs, r, hr, hbad => by
    unfold altgeo_process
    cases h1 : alt_encode_record cfg q with
    | error e => exact ⟨e, rfl⟩
    | ok v =>
      rcases List.mem_cons.mp hr with rfl | hmem
      · obtain ⟨e, he⟩ := alt_encode_error_of_unfit cfg r hbad
        exact absurd (he.symm.trans h1) (by simp)
      · obtain ⟨e, he⟩ := altgeo_error_of_mem cfg rs r hmem hbad
        exact ⟨e, by rw [he]⟩

/-- Claim C10: a record whose digit strings do not fit the precomputed
layout (too long, or containing a non-digit character such as the minus
sign of a negative scaled value) makes the digit encoder raise: the whole
batch aborts with an exception, no output batch is produced, and `process`
propagates the exception without persisting any cache entry. -/
theorem c10_unfit_record_aborts (M : Md5Model) (cfg : AltCfg)
    (records : List Record) (cls : String) (csv : List String) (r : Record)
    (hr : r ∈ records) (hbad : record_fits cfg r = false) :
    ∃ e, altgeo_process cfg records = .error e ∧
      process M (fun _ => altgeo_process cfg records) cls csv true .absent =
        ⟨.error e, .absent, 1⟩ := by
  obtain ⟨e, he⟩ := altgeo_error_of_mem cfg records r hr hbad
  refine ⟨e, he, ?_⟩
  simp [process, check_file, gen_hash_ne_empty, he]

theorem record_unfit_example :
    record_fits ⟨6, 1, 140⟩ ⟨-5, 40, -73⟩ = false := by
  have hs : scaled ⟨6, 1, 140⟩ ⟨-5, 40, -73⟩ = (130000000, 107000000, -50) := by
    show (⌊((40 : ℚ) + 90) * (10 : ℚ) ^ (6 : ℕ)⌋,
          ⌊((-73 : ℚ) + 180) * (10 : ℚ) ^ (6 : ℕ)⌋,
          ⌊(-5 : ℚ) * (10 : ℚ) ^ (1 : ℕ)⌋) =
        ((130000000 : ℤ), (107000000 : ℤ), (-50 : ℤ))
    simp only [Prod.mk.injEq]
    refine ⟨?_, ?_, ?_⟩ <;> (rw [Int.floor_eq_iff] <;> norm_num)
  unfold record_fits lat_str lon_str spd_str
  rw [hs, sdigits_default]
  decide

/-- Witness for C10: the default configuration with a record of negative
speed; its scaled speed string `"-50"` contains a non-digit character. -/
theorem c10_unfit_record_aborts_witness :
    ∃ e, altgeo_process ⟨6, 1, 140⟩ [⟨-5, 40, -73⟩] = .error e ∧
      process mStub (fun _ => altgeo_process ⟨6, 1, 140⟩ [⟨-5, 40, -73⟩])
          "AltGeoPreprocessor" ["r\n"] true .absent =
        ⟨.error e, .absent, 1⟩ :=
  c10_unfit_record_aborts mStub ⟨6, 1, 140⟩ [⟨-5, 40, -73⟩]
    "AltGeoPreprocessor" ["r\n"] ⟨-5, 40, -73⟩ (by simp) record_unfit_example

end Preproc
